import Mathlib

/-!
Shallow embedding of the redisgo repository (Go): the value record and
expiration check (`value.go`), the keyspace store (`RedisDb` with `Set`,
`Get`, `Delete`, `MemUsed`), the configuration surface relevant to
eviction (`Config`), and the RESP wire codec (`resp.go`).

Modelling conventions:
- Go `time.Time` is modelled as an `Int` counting nanoseconds since the
  Unix epoch; `time.Time.Unix()` is floor division by 10^9 (Go stores a
  seconds field plus a nanoseconds field in `[0, 10^9)`, so `Unix()` is
  the floor of the nanosecond count divided by 10^9).  The Go zero value
  `time.Time{}` has `Unix() == -62135596800`.
- Go byte strings are `List Nat` (one `Nat` per byte).
- The `uint64` memory counter is a `Nat` reduced mod `2^64`; Go's
  wrapping addition and subtraction are `add64` / `sub64`.
- The Go map `map[string]*Item` is an association list; in-place update
  of the pointed-to `Item` is modelled by re-binding the key.
- Fallible Go functions return `Except`/a result sum; a Go runtime panic
  (e.g. `make` with a negative length) is a distinct `panic` outcome,
  not an ordinary error return.
-/

namespace Redisgo

/-! ### value.go: time, Item, hasExpired, approxMemUsage -/

/-- Nanoseconds per second, the factor between Go's monotonic nanosecond
count and `time.Time.Unix()`. -/
def nanosPerSec : Int := 1000000000

/-- The constant `const unixTSEpoch int64 = -62135596800` — sentinel `Unix()` value
meaning "no expiry set" (the `Unix()` of Go's zero `time.Time`). -/
def unixTSEpoch : Int := -62135596800

/-- A point in time: nanoseconds since the Unix epoch. -/
abbrev GoTime := Int

/-- Go `time.Time.Unix()`: seconds since the epoch, floor of nanoseconds / 10^9. -/
def GoTime.unix (t : GoTime) : Int := Int.fdiv t nanosPerSec

/-- Go's zero `time.Time{}` (January 1, year 1): its `Unix()` is
`-62135596800`, i.e. exactly `unixTSEpoch` seconds, zero nanoseconds. -/
def goZeroTime : GoTime := unixTSEpoch * nanosPerSec

/-- A Go string, viewed as its byte content. -/
abbrev GoStr := List Nat

/-- Structure `Item` — a stored value plus metadata (value.go). -/
structure Item where
  value : GoStr
  expiration : GoTime
  lastAccess : GoTime
  accessCount : Int
  deriving Repr, DecidableEq

/-- Method `func (i *Item) hasExpired() bool`, with the implicit `time.Now()`
made an explicit `now` argument:
`i.Expiration.Unix() != unixTSEpoch && time.Until(i.Expiration) <= 0`
(`time.Until(t) = t.Sub(now)`). -/
def Item.hasExpired (i : Item) (now : GoTime) : Bool :=
  (GoTime.unix i.expiration != unixTSEpoch) && (i.expiration - now ≤ 0)

/-- Method `func (i *Item) approxMemUsage(key string) int64`: fixed-cost size
model — time+map-entry overhead, plus string header + length for the key
and for the value. -/
def Item.approxMemUsage (i : Item) (key : GoStr) : Nat :=
  let stringHeader := 16
  let timeSize := 24
  let mapEntry := 32
  (timeSize + mapEntry) + (stringHeader + key.length) + (stringHeader + i.value.length)

/-! ### part_001: RedisDb with Set / Get / Delete / MemUsed -/

/-- Modulus of Go's `uint64`. -/
def w64 : Nat := 2 ^ 64

/-- Wrapping `uint64` addition (`atomic.Uint64.Add`). -/
def add64 (a b : Nat) : Nat := (a + b) % w64

/-- Wrapping `uint64` subtraction (`prev - usage` on `uint64`). -/
def sub64 (a b : Nat) : Nat := (a + (w64 - b % w64)) % w64

/-- The store of `RedisDb`: association list standing in for
`map[string]*Item` (first binding of a key is the live one). -/
abbrev Store := List (GoStr × Item)

/-- Map lookup `rdb.store[key]`. -/
def Store.lookup (s : Store) (key : GoStr) : Option Item :=
  (s.find? (fun p => p.1 = key)).map (·.2)

/-- Removal of the (first) binding of `key`, modelling `delete(rdb.store, key)`
and the rebinding performed by map assignment. -/
def Store.eraseKey : Store → GoStr → Store
  | [], _ => []
  | p :: rest, key => if p.1 = key then rest else p :: Store.eraseKey rest key

/-- Structure `RedisDb`: the keyspace map plus the running approximate memory total
(`memUsed atomic.Uint64`). -/
structure RedisDb where
  store : Store
  memUsed : Nat
  deriving Repr, DecidableEq

/-- Constructor `func NewRedisDb() *RedisDb` — an initialized empty database. -/
def NewRedisDb : RedisDb := { store := [], memUsed := 0 }

/-- Method `func (rdb *RedisDb) MemUsed() uint64`. -/
def RedisDb.MemUsed (rdb : RedisDb) : Nat := rdb.memUsed

/-- Method `func (rdb *RedisDb) Set(key, val string)`: if the key already exists
its usage is subtracted, then a fresh `&Item{Value: val}` (all metadata at
Go zero values) is stored and its usage added. -/
def RedisDb.Set (rdb : RedisDb) (key val : GoStr) : RedisDb :=
  let m1 :=
    match rdb.store.lookup key with
    | some old => sub64 rdb.memUsed (old.approxMemUsage key)
    | none => rdb.memUsed
  let item : Item :=
    { value := val, expiration := goZeroTime, lastAccess := goZeroTime, accessCount := 0 }
  { store := (key, item) :: rdb.store.eraseKey key
    memUsed := add64 m1 (item.approxMemUsage key) }

/-- Method `func (rdb *RedisDb) Get(key string) (*Item, bool)`, with `time.Now()`
made an explicit `now` argument.  On a hit the item's `AccessCount` is
incremented and its last-used time set to `now`; the store's memory total
is untouched and no expiry check is made. -/
def RedisDb.Get (rdb : RedisDb) (key : GoStr) (now : GoTime) : Option Item × RedisDb :=
  match rdb.store.lookup key with
  | none => (none, rdb)
  | some item =>
      let item' := { item with accessCount := item.accessCount + 1, lastAccess := now }
      (some item', { rdb with store := (key, item') :: rdb.store.eraseKey key })

/-- Method `func (rdb *RedisDb) Delete(key string)`: returns early if the key is
absent; otherwise subtracts the item's usage and deletes the binding. -/
def RedisDb.Delete (rdb : RedisDb) (key : GoStr) : RedisDb :=
  match rdb.store.lookup key with
  | none => rdb
  | some item =>
      { store := rdb.store.eraseKey key
        memUsed := sub64 rdb.memUsed (item.approxMemUsage key) }

/-- One call in a client history against the store. -/
inductive Op where
  | set (key val : GoStr)
  | del (key : GoStr)
  deriving Repr, DecidableEq

/-- Apply a finite sequence of `Set`/`Delete` calls to a database. -/
def runOps (ops : List Op) (rdb : RedisDb) : RedisDb :=
  match ops with
  | [] => rdb
  | Op.set k v :: rest => runOps rest (rdb.Set k v)
  | Op.del k :: rest => runOps rest (rdb.Delete k)

/-- Sum of `approxMemUsage` over the entries of a store. -/
def sumUsage (s : Store) : Nat :=
  (s.map (fun p => p.2.approxMemUsage p.1)).sum

/-- Iterate `M` consecutive `Get` calls on the same key (each at time `now`),
threading the database through. -/
def getIter : Nat → RedisDb → GoStr → GoTime → RedisDb
  | 0, rdb, _, _ => rdb
  | m + 1, rdb, key, now => getIter m (rdb.Get key now).2 key now

/-! ### part_000: the configuration surface relevant to eviction -/

/-- Go `type Eviction string` — the maxmemory-policy selector. -/
abbrev Eviction := String

/-- Constant `NoEviction Eviction = "noeviction"` — return an error on write
commands when maxmemory is reached; no keys are evicted. -/
def NoEviction : Eviction := "noeviction"

/-- The slice of `Config` that the memory-ceiling logic reads:
`maxmem` (0 means no limit) and the eviction policy. -/
structure Config where
  maxmem : Nat
  eviction : Eviction
  deriving Repr, DecidableEq

/-- Error `OutOfMemory` — the error a rejected write reports under
`no-eviction` (spec §7 taxonomy). -/
inductive OOMErr where
  | outOfMemory
  deriving Repr, DecidableEq

/-- Whether storing `val` under `key` would grow the database's memory
usage: the fresh record's usage exceeds the usage currently accounted to
`key` (zero when the key is absent). -/
def wouldGrowUsage (rdb : RedisDb) (key val : GoStr) : Bool :=
  let fresh : Item :=
    { value := val, expiration := goZeroTime, lastAccess := goZeroTime, accessCount := 0 }
  let oldUsage :=
    match rdb.store.lookup key with
    | some old => old.approxMemUsage key
    | none => 0
  oldUsage < fresh.approxMemUsage key

/-- Modelled from the spec: the memory-ceiling check guarding `Set` is not
present in the source — `part_000` declares the `Eviction` policy names,
`Config.maxmem` and the eviction `sample` shape, but (as spec §9 notes)
the ceiling check is never wired to `Set`.  Per spec §4.4/§7/§8: with
policy `no-eviction` and a nonzero ceiling already exceeded, a `Set` that
would grow usage reports `OutOfMemory` and leaves the store untouched;
otherwise the ordinary `Set` runs. -/
def setWithCeiling (conf : Config) (rdb : RedisDb) (key val : GoStr) :
    Option OOMErr × RedisDb :=
  if conf.eviction = NoEviction ∧ conf.maxmem ≠ 0 ∧ conf.maxmem < rdb.MemUsed ∧
      wouldGrowUsage rdb key val then
    (some OOMErr.outOfMemory, rdb)
  else
    (none, rdb.Set key val)

/-! ### resp.go: the RESP wire codec

Go's tagged `Value` struct (a `Type` field selecting which of `Bulk`,
`Str`, `Int`, `Err`, `Array` is meaningful) is modelled as an inductive
with one constructor per `ValueType`; decoded values populate exactly
the canonical field, matching the readers, which start from a zero
`Value`. -/

/-- A RESP protocol value (`type Value struct` with its `ValueType` tag). -/
inductive RValue where
  | simple (s : GoStr)
  | bulk (b : GoStr)
  | int (i : Int)
  | err (e : GoStr)
  | null
  | array (elems : List RValue)
  deriving Repr

mutual

/-- Structural equality on `RValue` (Go's `==` on the canonical fields). -/
def RValue.beq : RValue → RValue → Bool
  | .simple a, .simple b => a = b
  | .bulk a, .bulk b => a = b
  | .int a, .int b => a = b
  | .err a, .err b => a = b
  | .null, .null => true
  | .array xs, .array ys => RValue.beqList xs ys
  | _, _ => false

/-- Elementwise structural equality on lists of `RValue`. -/
def RValue.beqList : List RValue → List RValue → Bool
  | [], [] => true
  | x :: xs, y :: ys => RValue.beq x y && RValue.beqList xs ys
  | _, _ => false

end

/-- Decimal digits of `n`, least significant first, computed with `fuel`
steps of division by 10 (any `fuel ≥ n` is exact). -/
def natDecAux : Nat → Nat → List Nat
  | 0, _ => []
  | fuel + 1, n => if n = 0 then [] else (n % 10 + 48) :: natDecAux fuel (n / 10)

/-- Decimal ASCII rendering of a `Nat` (`fmt.Fprintf` with `%d`). -/
def natToDec (n : Nat) : List Nat :=
  if n = 0 then [48] else (natDecAux n n).reverse

/-- Decimal ASCII rendering of an `Int` (`fmt.Fprintf` with `%d`). -/
def intToDec (i : Int) : List Nat :=
  if i < 0 then 45 :: natToDec i.natAbs else natToDec i.toNat

mutual

/-- Method `func (w *Writer) Write(val *Value) error` — the byte stream produced
for each variant (`+…\r\n`, `*N\r\n` then elements, `$N\r\n…\r\n`,
`:N\r\n`, `$-1\r\n`, `-…\r\n`). -/
def RValue.write : RValue → List Nat
  | .simple s => 43 :: s ++ [13, 10]
  | .array elems => 42 :: natToDec elems.length ++ [13, 10] ++ RValue.writeList elems
  | .bulk b => 36 :: natToDec b.length ++ [13, 10] ++ b ++ [13, 10]
  | .int i => 58 :: intToDec i ++ [13, 10]
  | .null => [36, 45, 49, 13, 10]
  | .err e => 45 :: e ++ [13, 10]

/-- The element loop of `Write` on an Array: each element encoded in
order, concatenated. -/
def RValue.writeList : List RValue → List Nat
  | [] => []
  | v :: vs => RValue.write v ++ RValue.writeList vs

end

/-- Split a byte stream at its first `'\n'` (byte 10), as
`bufio.Reader.ReadString('\n')` does: the prefix includes the `'\n'`;
`none` when the stream holds no `'\n'` (Go reports `io.EOF`). -/
def splitAtNl : List Nat → Option (List Nat × List Nat)
  | [] => none
  | b :: rest =>
      if b = 10 then some ([10], rest)
      else
        match splitAtNl rest with
        | none => none
        | some (line, remainder) => some (b :: line, remainder)

/-- Go `strings.TrimSuffix(line, "\r\n")`: drop a trailing CRLF if present
(the last byte is `'\n'` and the one before it `'\r'`). -/
def trimCrlf (l : List Nat) : List Nat :=
  match l.reverse with
  | a :: b :: r => if a = 10 ∧ b = 13 then r.reverse else l
  | _ => l

/-- The error returns of the readers: end of stream (`io.EOF` /
`io.ErrUnexpectedEOF`), a line whose leading sigil is not the expected
`'*'` or `'$'` (`fmt.Errorf("expected … line, got %s", line)` — carries
the offending line), or an unparsable count (`strconv.Atoi` error,
carrying the text that failed to parse). -/
inductive RespErr where
  | eof
  | expectedArrayLine (got : List Nat)
  | expectedBulkLine (got : List Nat)
  | atoiErr (text : List Nat)
  deriving Repr, DecidableEq

/-- How a decoding call ends: a value plus the unconsumed stream, an
ordinary error return, or a Go runtime panic. -/
inductive DecRes (α : Type) where
  | ok (val : α) (rest : List Nat)
  | fail (e : RespErr)
  | panics
  deriving Repr, DecidableEq

/-- Function `func readLine(r *bufio.Reader) (string, error)`: read through the
first `'\n'`, then trim a trailing `"\r\n"`. -/
def readLine (s : List Nat) : Except RespErr (List Nat × List Nat) :=
  match splitAtNl s with
  | none => .error RespErr.eof
  | some (raw, rest) => .ok (trimCrlf raw, rest)

/-- ASCII decimal digits to a number; `none` on empty input or any
non-digit byte. -/
def digitsToNat : List Nat → Option Nat
  | [] => none
  | ds =>
      ds.foldl
        (fun acc d =>
          match acc with
          | none => none
          | some n => if 48 ≤ d ∧ d ≤ 57 then some (n * 10 + (d - 48)) else none)
        (some 0)

/-- Go `strconv.Atoi`: an optional leading sign (`'+'` = 43, `'-'` = 45)
then one or more digits. -/
def atoi (l : List Nat) : Option Int :=
  match l with
  | [] => none
  | c :: ds =>
      if c = 43 then (digitsToNat ds).map Int.ofNat
      else if c = 45 then (digitsToNat ds).map (fun n => -(n : Int))
      else (digitsToNat (c :: ds)).map Int.ofNat

/-- Method `func (v *Value) readBulk(r *bufio.Reader) (val Value, err error)`:
read a `$<N>` line; `N = -1` yields Null, `N < -1` panics in Go
(`make([]byte, N+2)` with negative length, or the negative slice bound
`buf[:N]`), otherwise exactly `N+2` further bytes are consumed and the
first `N` returned verbatim. -/
def readBulk (s : List Nat) : DecRes RValue :=
  match readLine s with
  | .error e => .fail e
  | .ok (line, rest) =>
      if line = [] ∨ line.head? ≠ some 36 then .fail (.expectedBulkLine line)
      else
        match atoi line.tail with
        | none => .fail (.atoiErr line.tail)
        | some n =>
            if n = -1 then .ok .null rest
            else if n < -1 then .panics
            else
              let len := n.toNat
              if rest.length < len + 2 then .fail .eof
              else .ok (.bulk (rest.take len)) (rest.drop (len + 2))

/-- The element loop of `readArray`: read `n` bulk strings in order. -/
def readBulks : Nat → List Nat → DecRes (List RValue)
  | 0, s => .ok [] s
  | n + 1, s =>
      match readBulk s with
      | .ok v rest =>
          match readBulks n rest with
          | .ok vs rest' => .ok (v :: vs) rest'
          | .fail e => .fail e
          | .panics => .panics
      | .fail e => .fail e
      | .panics => .panics

/-- Method `func (v *Value) readArray(r *bufio.Reader) error`: read a `*<N>`
line; a negative `N` reaches `make([]Value, N)` which panics in Go;
otherwise `N` bulk-string elements follow. -/
def readArray (s : List Nat) : DecRes RValue :=
  match readLine s with
  | .error e => .fail e
  | .ok (line, rest) =>
      if line = [] ∨ line.head? ≠ some 42 then .fail (.expectedArrayLine line)
      else
        match atoi line.tail with
        | none => .fail (.atoiErr line.tail)
        | some n =>
            if n < 0 then .panics
            else
              match readBulks n.toNat rest with
              | .ok vs rest' => .ok (.array vs) rest'
              | .fail e => .fail e
              | .panics => .panics

/-! Decidable equality for `RValue`, via `RValue.beq`. -/

mutual

theorem RValue.eq_of_beq : ∀ {a b : RValue}, RValue.beq a b = true → a = b
  | .simple a, .simple b, h => by
      simp only [RValue.beq, decide_eq_true_eq] at h
      exact congrArg RValue.simple h
  | .bulk a, .bulk b, h => by
      simp only [RValue.beq, decide_eq_true_eq] at h
      exact congrArg RValue.bulk h
  | .int a, .int b, h => by
      simp only [RValue.beq, decide_eq_true_eq] at h
      exact congrArg RValue.int h
  | .err a, .err b, h => by
      simp only [RValue.beq, decide_eq_true_eq] at h
      exact congrArg RValue.err h
  | .null, .null, _ => rfl
  | .array xs, .array ys, h => by
      simp only [RValue.beq] at h
      exact congrArg RValue.array (RValue.eqList_of_beqList h)
  | .simple _, .bulk _, h => by simp [RValue.beq] at h
  | .simple _, .int _, h => by simp [RValue.beq] at h
  | .simple _, .err _, h => by simp [RValue.beq] at h
  | .simple _, .null, h => by simp [RValue.beq] at h
  | .simple _, .array _, h => by simp [RValue.beq] at h
  | .bulk _, .simple _, h => by simp [RValue.beq] at h
  | .bulk _, .int _, h => by simp [RValue.beq] at h
  | .bulk _, .err _, h => by simp [RValue.beq] at h
  | .bulk _, .null, h => by simp [RValue.beq] at h
  | .bulk _, .array _, h => by simp [RValue.beq] at h
  | .int _, .simple _, h => by simp [RValue.beq] at h
  | .int _, .bulk _, h => by simp [RValue.beq] at h
  | .int _, .err _, h => by simp [RValue.beq] at h
  | .int _, .null, h => by simp [RValue.beq] at h
  | .int _, .array _, h => by simp [RValue.beq] at h
  | .err _, .simple _, h => by simp [RValue.beq] at h
  | .err _, .bulk _, h => by simp [RValue.beq] at h
  | .err _, .int _, h => by simp [RValue.beq] at h
  | .err _, .null, h => by simp [RValue.beq] at h
  | .err _, .array _, h => by simp [RValue.beq] at h
  | .null, .simple _, h => by simp [RValue.beq] at h
  | .null, .bulk _, h => by simp [RValue.beq] at h
  | .null, .int _, h => by simp [RValue.beq] at h
  | .null, .err _, h => by simp [RValue.beq] at h
  | .null, .array _, h => by simp [RValue.beq] at h
  | .array _, .simple _, h => by simp [RValue.beq] at h
  | .array _, .bulk _, h => by simp [RValue.beq] at h
  | .array _, .int _, h => by simp [RValue.beq] at h
  | .array _, .err _, h => by simp [RValue.beq] at h
  | .array _, .null, h => by simp [RValue.beq] at h

theorem RValue.eqList_of_beqList : ∀ {xs ys : List RValue}, RValue.beqList xs ys = true → xs = ys
  | [], [], _ => rfl
  | x :: xs, y :: ys, h => by
      simp only [RValue.beqList, Bool.and_eq_true] at h
      rw [RValue.eq_of_beq h.1, RValue.eqList_of_beqList h.2]
  | [], _ :: _, h => by simp [RValue.beqList] at h
  | _ :: _, [], h => by simp [RValue.beqList] at h

end

mutual

theorem RValue.beq_refl : ∀ (a : RValue), RValue.beq a a = true
  | .simple _ => by simp [RValue.beq]
  | .bulk _ => by simp [RValue.beq]
  | .int _ => by simp [RValue.beq]
  | .err _ => by simp [RValue.beq]
  | .null => rfl
  | .array xs => by simp only [RValue.beq]; exact RValue.beqList_refl xs

theorem RValue.beqList_refl : ∀ (xs : List RValue), RValue.beqList xs xs = true
  | [] => rfl
  | x :: xs => by
      simp only [RValue.beqList, Bool.and_eq_true]
      exact ⟨RValue.beq_refl x, RValue.beqList_refl xs⟩

end

instance : DecidableEq RValue := fun a b =>
  decidable_of_iff (RValue.beq a b = true)
    ⟨fun h => RValue.eq_of_beq h, fun h => h ▸ RValue.beq_refl a⟩

/-- The value shapes the repository's readers can produce: Bulk Strings
and Null (`readBulk`), hence array elements. -/
def bulkOrNull : RValue → Bool
  | .bulk _ => true
  | .null => true
  | _ => false

/-- The number denoted by a most-significant-first list of ASCII decimal
digits (specification-side interpretation of a digit string). -/
def natFromDigits (ds : List Nat) : Nat :=
  ds.foldl (fun n d => n * 10 + (d - 48)) 0

/-! ## Lemma layer -/

/-! ### The keyspace store: lookup / erase / memory accounting -/

theorem lookup_cons (p : GoStr × Item) (s : Store) (k : GoStr) :
    Store.lookup (p :: s) k = if p.1 = k then some p.2 else Store.lookup s k := by
  by_cases h : p.1 = k <;>
    simp [Store.lookup, List.find?_cons_of_pos, List.find?_cons_of_neg, h]

theorem eraseKey_of_lookup_none :
    ∀ (s : Store) (k : GoStr), Store.lookup s k = none → Store.eraseKey s k = s
  | [], _, _ => rfl
  | p :: rest, k, h => by
      rw [lookup_cons] at h
      by_cases hp : p.1 = k
      · simp [hp] at h
      · simp only [hp, if_false] at h
        simp [Store.eraseKey, hp, eraseKey_of_lookup_none rest k h]

theorem sumUsage_cons (p : GoStr × Item) (s : Store) :
    sumUsage (p :: s) = p.2.approxMemUsage p.1 + sumUsage s := by
  simp [sumUsage]

theorem sumUsage_eraseKey :
    ∀ (s : Store) (k : GoStr) (it : Item), Store.lookup s k = some it →
      sumUsage s = it.approxMemUsage k + sumUsage (Store.eraseKey s k)
  | [], k, it, h => by simp [Store.lookup] at h
  | p :: rest, k, it, h => by
      rw [lookup_cons] at h
      by_cases hp : p.1 = k
      · simp only [hp, if_true, Option.some.injEq] at h
        subst h
        simp [Store.eraseKey, hp, sumUsage_cons]
      · simp only [hp, if_false] at h
        have ih := sumUsage_eraseKey rest k it h
        simp [Store.eraseKey, hp, sumUsage_cons, ih]
        omega

/-! ### Wrapping `uint64` arithmetic -/

theorem add64_mod_left (S c : Nat) : add64 (S % w64) c = (S + c) % w64 := by
  unfold add64
  rw [Nat.mod_add_mod]

theorem sub64_mod_left (S b : Nat) (hb : b ≤ S) : sub64 (S % w64) b = (S - b) % w64 := by
  unfold sub64
  rw [Nat.mod_add_mod]
  have hdm := Nat.div_add_mod b w64
  have hlt : b % w64 < w64 := Nat.mod_lt _ (by norm_num [w64])
  have h2 : S + (w64 - b % w64) = (S - b) + w64 * (b / w64 + 1) := by
    have h3 : w64 * (b / w64) + b % w64 = b := hdm
    have h4 : w64 * (b / w64 + 1) = w64 * (b / w64) + w64 := by ring
    omega
  rw [h2, Nat.add_mul_mod_self_left]

/-! ### The memory-accounting invariant -/

theorem set_preserves_memInv (rdb : RedisDb) (k v : GoStr)
    (h : rdb.memUsed = sumUsage rdb.store % w64) :
    (rdb.Set k v).memUsed = sumUsage (rdb.Set k v).store % w64 := by
  unfold RedisDb.Set
  cases hl : rdb.store.lookup k with
  | none =>
      simp only [hl]
      rw [eraseKey_of_lookup_none rdb.store k hl, sumUsage_cons, h, add64_mod_left]
      ring_nf
  | some old =>
      simp only [hl]
      have hdecomp := sumUsage_eraseKey rdb.store k old hl
      have hle : old.approxMemUsage k ≤ sumUsage rdb.store := by omega
      rw [sumUsage_cons, h, sub64_mod_left _ _ hle]
      have : sumUsage rdb.store - old.approxMemUsage k = sumUsage (Store.eraseKey rdb.store k) := by
        omega
      rw [this, add64_mod_left]
      ring_nf

theorem delete_preserves_memInv (rdb : RedisDb) (k : GoStr)
    (h : rdb.memUsed = sumUsage rdb.store % w64) :
    (rdb.Delete k).memUsed = sumUsage (rdb.Delete k).store % w64 := by
  unfold RedisDb.Delete
  cases hl : rdb.store.lookup k with
  | none => simpa [hl] using h
  | some it =>
      simp only [hl]
      have hdecomp := sumUsage_eraseKey rdb.store k it hl
      have hle : it.approxMemUsage k ≤ sumUsage rdb.store := by omega
      rw [h, sub64_mod_left _ _ hle]
      have : sumUsage rdb.store - it.approxMemUsage k = sumUsage (Store.eraseKey rdb.store k) := by
        omega
      rw [this]

theorem runOps_preserves_memInv :
    ∀ (ops : List Op) (rdb : RedisDb), rdb.memUsed = sumUsage rdb.store % w64 →
      (runOps ops rdb).memUsed = sumUsage (runOps ops rdb).store % w64
  | [], _, h => h
  | Op.set k v :: rest, rdb, h =>
      runOps_preserves_memInv rest (rdb.Set k v) (set_preserves_memInv rdb k v h)
  | Op.del k :: rest, rdb, h =>
      runOps_preserves_memInv rest (rdb.Delete k) (delete_preserves_memInv rdb k h)

/-! ### `Get` hits -/

theorem get_hit (rdb : RedisDb) (k : GoStr) (now : GoTime) (it : Item)
    (h : rdb.store.lookup k = some it) :
    (rdb.Get k now).1 = some { it with accessCount := it.accessCount + 1, lastAccess := now } ∧
    (rdb.Get k now).2.store.lookup k =
      some { it with accessCount := it.accessCount + 1, lastAccess := now } ∧
    (rdb.Get k now).2.memUsed = rdb.memUsed := by
  unfold RedisDb.Get
  simp [h, lookup_cons]

theorem getIter_accessCount :
    ∀ (M : Nat) (rdb : RedisDb) (k : GoStr) (now : GoTime) (it : Item),
      rdb.store.lookup k = some it →
      ∃ it', (getIter M rdb k now).store.lookup k = some it' ∧
        it'.accessCount = it.accessCount + M ∧
        it'.value = it.value ∧ it'.expiration = it.expiration
  | 0, rdb, k, now, it, h => ⟨it, by simpa [getIter] using h⟩
  | M + 1, rdb, k, now, it, h => by
      have hstep := (get_hit rdb k now it h).2.1
      obtain ⟨it', h1, h2, h3, h4⟩ :=
        getIter_accessCount M (rdb.Get k now).2 k now _ hstep
      refine ⟨it', ?_, ?_, h3, h4⟩
      · simpa [getIter] using h1
      · simp only [h2]
        push_cast
        ring

/-! ### Decimal rendering and parsing -/

theorem natDecAux_zero (fuel : Nat) : natDecAux fuel 0 = [] := by
  cases fuel <;> simp [natDecAux]

theorem natDecAux_digits :
    ∀ (fuel n : Nat), ∀ d ∈ natDecAux fuel n, 48 ≤ d ∧ d ≤ 57
  | 0, _, d, hd => by simp [natDecAux] at hd
  | fuel + 1, n, d, hd => by
      by_cases hn : n = 0
      · simp [natDecAux, hn] at hd
      · simp only [natDecAux, hn, if_false, List.mem_cons] at hd
        rcases hd with rfl | hd
        · have := Nat.mod_lt n (show 0 < 10 by norm_num)
          omega
        · exact natDecAux_digits fuel (n / 10) d hd

theorem natDecAux_val :
    ∀ (fuel n : Nat), 0 < n → n ≤ fuel → natFromDigits ((natDecAux fuel n).reverse) = n
  | 0, n, hp, hle => by omega
  | fuel + 1, n, hp, hle => by
      have hn : n ≠ 0 := Nat.pos_iff_ne_zero.mp hp
      simp only [natDecAux, hn, if_false, List.reverse_cons]
      rw [natFromDigits, List.foldl_append]
      by_cases hq : n / 10 = 0
      · rw [hq, natDecAux_zero]
        simp only [List.reverse_nil, List.foldl_nil]
        have h10 : n < 10 := by omega
        have := Nat.div_add_mod n 10
        simp [natFromDigits]
        omega
      · have hqpos : 0 < n / 10 := Nat.pos_iff_ne_zero.mpr hq
        have hqle : n / 10 ≤ fuel := by
          have := Nat.div_lt_self hp (show 1 < 10 by norm_num)
          omega
        have ih := natDecAux_val fuel (n / 10) hqpos hqle
        rw [natFromDigits] at ih
        rw [ih]
        simp only [List.foldl_cons, List.foldl_nil]
        have := Nat.div_add_mod n 10
        omega

theorem natToDec_ne_nil (n : Nat) : natToDec n ≠ [] := by
  unfold natToDec
  by_cases hn : n = 0
  · simp [hn]
  · simp only [hn, if_false]
    cases n with
    | zero => omega
    | succ m =>
        simp [natDecAux, Nat.succ_ne_zero]

theorem natToDec_digits (n : Nat) : ∀ d ∈ natToDec n, 48 ≤ d ∧ d ≤ 57 := by
  unfold natToDec
  by_cases hn : n = 0
  · simp [hn]
  · simp only [hn, if_false]
    intro d hd
    exact natDecAux_digits n n d (List.mem_reverse.mp hd)

theorem natToDec_val (n : Nat) : natFromDigits (natToDec n) = n := by
  unfold natToDec
  by_cases hn : n = 0
  · simp [hn, natFromDigits]
  · simp only [hn, if_false]
    exact natDecAux_val n n (Nat.pos_iff_ne_zero.mpr hn) le_rfl

theorem natToDec_no_nl (n : Nat) : 10 ∉ natToDec n := by
  intro h
  have := natToDec_digits n 10 h
  omega

theorem digitsToNat_fold :
    ∀ (ds : List Nat) (n : Nat), (∀ d ∈ ds, 48 ≤ d ∧ d ≤ 57) →
      ds.foldl
        (fun acc d =>
          match acc with
          | none => none
          | some m => if 48 ≤ d ∧ d ≤ 57 then some (m * 10 + (d - 48)) else none)
        (some n) =
      some (ds.foldl (fun m d => m * 10 + (d - 48)) n)
  | [], _, _ => rfl
  | d :: ds, n, h => by
      have hd := h d (List.mem_cons_self d ds)
      simp only [List.foldl_cons, hd, and_self, if_true]
      exact digitsToNat_fold ds _ (fun x hx => h x (List.mem_cons_of_mem d hx))

theorem digitsToNat_eq (ds : List Nat) (hne : ds ≠ [])
    (h : ∀ d ∈ ds, 48 ≤ d ∧ d ≤ 57) : digitsToNat ds = some (natFromDigits ds) := by
  cases ds with
  | nil => exact absurd rfl hne
  | cons d ds =>
      unfold digitsToNat natFromDigits
      exact digitsToNat_fold (d :: ds) 0 h

theorem atoi_natToDec (n : Nat) : atoi (natToDec n) = some (n : Int) := by
  obtain ⟨d, ds, hcons⟩ := List.exists_cons_of_ne_nil (natToDec_ne_nil n)
  have hdig : 48 ≤ d ∧ d ≤ 57 := natToDec_digits n d (by rw [hcons]; exact List.mem_cons_self d ds)
  rw [hcons]
  simp only [atoi]
  rw [if_neg (by omega), if_neg (by omega)]
  rw [← hcons, digitsToNat_eq _ (natToDec_ne_nil n) (natToDec_digits n), natToDec_val]
  rfl

/-! ### Line reading -/

theorem splitAtNl_append :
    ∀ (l r : List Nat), 10 ∉ l → splitAtNl (l ++ 10 :: r) = some (l ++ [10], r)
  | [], r, _ => by simp [splitAtNl]
  | b :: l, r, h => by
      have hb : b ≠ 10 := fun hb => h (by simp [hb])
      have hl : 10 ∉ l := fun hl => h (by simp [hl])
      have ih := splitAtNl_append l r hl
      simp only [List.cons_append, splitAtNl, hb, if_false, List.append_eq, ih]

theorem trimCrlf_append (l : List Nat) : trimCrlf (l ++ [13, 10]) = l := by
  simp [trimCrlf, List.reverse_append]

theorem readLine_append (l r : List Nat) (h : 10 ∉ l) :
    readLine (l ++ 13 :: 10 :: r) = .ok (l, r) := by
  have h2 : 10 ∉ l ++ [13] := by
    intro hx
    rcases List.mem_append.mp hx with hx | hx
    · exact h hx
    · simp at hx
  have hsplit : splitAtNl (l ++ 13 :: 10 :: r) = some (l ++ [13, 10], r) := by
    have hs := splitAtNl_append (l ++ [13]) r h2
    rw [show (l ++ [13]) ++ 10 :: r = l ++ 13 :: 10 :: r by simp] at hs
    rw [show (l ++ [13]) ++ [10] = l ++ [13, 10] by simp] at hs
    exact hs
  unfold readLine
  rw [hsplit]
  simp [trimCrlf_append]

/-! ### The readers on well-formed input -/

theorem readBulk_payload (b : GoStr) (t1 t2 : Nat) (rest : List Nat) :
    readBulk (36 :: natToDec b.length ++ 13 :: 10 :: (b ++ t1 :: t2 :: rest)) =
      .ok (.bulk b) rest := by
  have hnl : 10 ∉ (36 : Nat) :: natToDec b.length := by
    intro hx
    rcases List.mem_cons.mp hx with hx | hx
    · omega
    · exact natToDec_no_nl b.length hx
  have hline := readLine_append (36 :: natToDec b.length) (b ++ t1 :: t2 :: rest) hnl
  unfold readBulk
  rw [show (36 : Nat) :: natToDec b.length ++ 13 :: 10 :: (b ++ t1 :: t2 :: rest) =
      ((36 : Nat) :: natToDec b.length) ++ 13 :: 10 :: (b ++ t1 :: t2 :: rest) from rfl]
  rw [hline]
  simp only [List.cons_ne_nil, List.head?_cons, ne_eq, Option.some.injEq, false_or,
    not_true_eq_false, if_false, List.tail_cons, atoi_natToDec]
  rw [if_neg (by omega), if_neg (by omega)]
  have hlen : (b ++ t1 :: t2 :: rest).length = b.length + 2 + rest.length := by
    simp [List.length_append]
    omega
  rw [if_neg (by rw [hlen]; omega)]
  have htoNat : ((b.length : Int)).toNat = b.length := Int.toNat_natCast b.length
  rw [htoNat]
  rw [List.take_left' rfl]
  rw [show b ++ t1 :: t2 :: rest = (b ++ [t1, t2]) ++ rest by simp]
  rw [List.drop_left' (by simp)]

theorem readBulk_null_stream (rest : List Nat) :
    readBulk ([36, 45, 49, 13, 10] ++ rest) = .ok .null rest := by
  have hline := readLine_append [36, 45, 49] rest (by decide)
  unfold readBulk
  rw [show ([36, 45, 49, 13, 10] : List Nat) ++ rest = [36, 45, 49] ++ 13 :: 10 :: rest by simp]
  rw [hline]
  norm_num [atoi, digitsToNat]
  simp

theorem readBulks_writeList :
    ∀ (vs : List RValue) (rest : List Nat), (∀ v ∈ vs, bulkOrNull v = true) →
      readBulks vs.length (RValue.writeList vs ++ rest) = .ok vs rest
  | [], rest, _ => by simp [readBulks, RValue.writeList]
  | v :: vs, rest, h => by
      have hv : bulkOrNull v = true := h v (List.mem_cons_self v vs)
      have hrest : ∀ u ∈ vs, bulkOrNull u = true :=
        fun u hu => h u (List.mem_cons_of_mem v hu)
      have ih := readBulks_writeList vs rest hrest
      cases v with
      | bulk b =>
          have hw : RValue.writeList (.bulk b :: vs) ++ rest =
              36 :: natToDec b.length ++ 13 :: 10 ::
                (b ++ 13 :: 10 :: (RValue.writeList vs ++ rest)) := by
            simp [RValue.writeList, RValue.write]
          simp only [List.length_cons, readBulks, hw,
            readBulk_payload b 13 10 (RValue.writeList vs ++ rest), ih]
      | null =>
          have hw : RValue.writeList (.null :: vs) ++ rest =
              [36, 45, 49, 13, 10] ++ (RValue.writeList vs ++ rest) := by
            simp [RValue.writeList, RValue.write]
          simp only [List.length_cons, readBulks, hw,
            readBulk_null_stream (RValue.writeList vs ++ rest), ih]
      | simple s => simp [bulkOrNull] at hv
      | int i => simp [bulkOrNull] at hv
      | err e => simp [bulkOrNull] at hv
      | array a => simp [bulkOrNull] at hv

theorem readArray_write (vs : List RValue) (rest : List Nat)
    (h : ∀ v ∈ vs, bulkOrNull v = true) :
    readArray (RValue.write (.array vs) ++ rest) = .ok (.array vs) rest := by
  have hnl : 10 ∉ (42 : Nat) :: natToDec vs.length := by
    intro hx
    rcases List.mem_cons.mp hx with hx | hx
    · omega
    · exact natToDec_no_nl vs.length hx
  have hline := readLine_append (42 :: natToDec vs.length)
    (RValue.writeList vs ++ rest) hnl
  unfold readArray
  rw [show RValue.write (.array vs) ++ rest =
      ((42 : Nat) :: natToDec vs.length) ++ 13 :: 10 :: (RValue.writeList vs ++ rest) by
    simp [RValue.write]]
  rw [hline]
  simp only [List.cons_ne_nil, List.head?_cons, ne_eq, Option.some.injEq, false_or,
    not_true_eq_false, if_false, List.tail_cons, atoi_natToDec]
  rw [if_neg (by omega)]
  have htoNat : ((vs.length : Int)).toNat = vs.length := Int.toNat_natCast vs.length
  rw [htoNat, readBulks_writeList vs rest h]

/-- The record a `Set` leaves under its key: the fresh item with
Go-zero-value metadata. -/
theorem lookup_set_self (rdb : RedisDb) (key val : GoStr) :
    (rdb.Set key val).store.lookup key =
      some { value := val, expiration := goZeroTime, lastAccess := goZeroTime,
             accessCount := 0 } := by
  unfold RedisDb.Set
  simp [lookup_cons]

/-- The zero `time.Time` carries the no-expiry sentinel second. -/
theorem unix_goZeroTime : GoTime.unix goZeroTime = unixTSEpoch := by decide

/-! ## Claim theorems -/

/-- C1: for every finite sequence of `Set`/`Delete` calls applied to an
initially empty store, `MemUsed()` afterwards equals (the `uint64`
reduction of) the sum of `approxMemUsage(key, record)` over exactly the
live entries; whenever that sum fits in a `uint64` — every physically
realizable history — the equality is exact. -/
theorem memUsed_eq_sumUsage (ops : List Op) :
    (runOps ops NewRedisDb).MemUsed = sumUsage (runOps ops NewRedisDb).store % w64 ∧
    (sumUsage (runOps ops NewRedisDb).store < w64 →
      (runOps ops NewRedisDb).MemUsed = sumUsage (runOps ops NewRedisDb).store) := by
  have h := runOps_preserves_memInv ops NewRedisDb (by simp [NewRedisDb, sumUsage])
  refine ⟨h, fun hlt => ?_⟩
  show (runOps ops NewRedisDb).memUsed = _
  rw [h, Nat.mod_eq_of_lt hlt]

/-- C1 witness: after `Set("a","1")` then `Set("a","22")` the total is
exactly the usage of the single live record for `"a"` (91 bytes, the
second record only). -/
theorem memUsed_eq_sumUsage_witness :
    (runOps [Op.set [97] [49], Op.set [97] [50, 50]] NewRedisDb).MemUsed =
      sumUsage (runOps [Op.set [97] [49], Op.set [97] [50, 50]] NewRedisDb).store ∧
    (runOps [Op.set [97] [49], Op.set [97] [50, 50]] NewRedisDb).MemUsed = 91 ∧
    (runOps [Op.set [97] [49], Op.set [97] [50, 50]] NewRedisDb).store =
      [([97], { value := [50, 50], expiration := goZeroTime, lastAccess := goZeroTime,
                accessCount := 0 })] :=
  ⟨(memUsed_eq_sumUsage [Op.set [97] [49], Op.set [97] [50, 50]]).2 (by decide),
   by decide, by decide⟩

/-- C2 counterexample: `decode(encode(v)) == v` fails for values outside
the bulk/null/flat-array fragment — the repository's only decoders are
`readArray` and `readBulk`, and both reject the encoding of a Simple
String (`+OK\r\n`), and `readArray` rejects a nested array's encoding
because elements are read with `readBulk`. -/
theorem resp_roundtrip_cex :
    RValue.write (.simple [79, 75]) = [43, 79, 75, 13, 10] ∧
    readArray (RValue.write (.simple [79, 75])) =
      .fail (.expectedArrayLine [43, 79, 75]) ∧
    readBulk (RValue.write (.simple [79, 75])) =
      .fail (.expectedBulkLine [43, 79, 75]) ∧
    readArray (RValue.write (.array [.array []])) =
      .fail (.expectedBulkLine [42, 48]) := by decide

/-- C2 (amended): the decode/encode round-trip holds on the fragment the
readers support — `readBulk` inverts the encoding of every Bulk String
(arbitrary bytes, embedded CRLF included, and the empty string) and of
Null, and `readArray` inverts the encoding of every Array (empty
included) whose elements are Bulk Strings or Nulls — consuming exactly
the encoded bytes. -/
theorem resp_roundtrip_supported :
    (∀ (b : GoStr) (rest : List Nat),
        readBulk (RValue.write (.bulk b) ++ rest) = .ok (.bulk b) rest) ∧
    (∀ rest : List Nat, readBulk (RValue.write .null ++ rest) = .ok .null rest) ∧
    (∀ (vs : List RValue) (rest : List Nat), (∀ v ∈ vs, bulkOrNull v = true) →
        readArray (RValue.write (.array vs) ++ rest) = .ok (.array vs) rest) := by
  refine ⟨fun b rest => ?_, fun rest => ?_, readArray_write⟩
  · rw [show RValue.write (.bulk b) ++ rest =
        36 :: natToDec b.length ++ 13 :: 10 :: (b ++ 13 :: 10 :: rest) by
      simp [RValue.write]]
    exact readBulk_payload b 13 10 rest
  · exact readBulk_null_stream rest

/-- C2 witness: the round-trip at a bulk string with an embedded CRLF and
at a two-element array. -/
theorem resp_roundtrip_supported_witness :
    readBulk (RValue.write (.bulk [97, 13, 10, 98]) ++ []) =
      .ok (.bulk [97, 13, 10, 98]) [] ∧
    readArray (RValue.write (.array [.bulk [97], .null]) ++ []) =
      .ok (.array [.bulk [97], .null]) [] :=
  ⟨resp_roundtrip_supported.1 [97, 13, 10, 98] [],
   resp_roundtrip_supported.2.2 [.bulk [97], .null] [] (by decide)⟩

/-- C3 counterexample: a record expired at the time of the call (here
`expiresAt` = epoch 0, `now` = 1000 ns) is still returned by `Get` with
`found = true`, stays in the store, and no memory is deducted — `Get`
performs no expiry check. -/
theorem get_expired_still_found_cex :
    Item.hasExpired ⟨[118], 0, 0, 0⟩ 1000 = true ∧
    (RedisDb.Get ⟨[([107], ⟨[118], 0, 0, 0⟩)], 90⟩ [107] 1000).1 =
      some ⟨[118], 0, 1000, 1⟩ ∧
    (RedisDb.Get ⟨[([107], ⟨[118], 0, 0, 0⟩)], 90⟩ [107] 1000).2.store.lookup [107] =
      some ⟨[118], 0, 1000, 1⟩ ∧
    (RedisDb.Get ⟨[([107], ⟨[118], 0, 0, 0⟩)], 90⟩ [107] 1000).2.MemUsed = 90 := by
  decide

/-- C3 (amended): `Get` applies no expiration check: every key present in
the store is returned with `found = true` (metadata updated), the record
is not removed, and the memory total is not changed — in particular a
record carrying the never-expires sentinel remains visible at every later
time, but so does an expired one. -/
theorem get_ignores_expiry (rdb : RedisDb) (key : GoStr) (now : GoTime) (it : Item)
    (h : rdb.store.lookup key = some it) :
    (rdb.Get key now).1 =
      some { it with accessCount := it.accessCount + 1, lastAccess := now } ∧
    (rdb.Get key now).2.store.lookup key =
      some { it with accessCount := it.accessCount + 1, lastAccess := now } ∧
    (rdb.Get key now).2.MemUsed = rdb.MemUsed :=
  get_hit rdb key now it h

/-- C3 witness: the amended claim at the expired-record database. -/
theorem get_ignores_expiry_witness :
    (RedisDb.Get ⟨[([107], ⟨[118], 0, 0, 0⟩)], 90⟩ [107] 1000).1 =
      some ⟨[118], 0, 1000, 1⟩ :=
  (get_ignores_expiry ⟨[([107], ⟨[118], 0, 0, 0⟩)], 90⟩ [107] 1000 ⟨[118], 0, 0, 0⟩
    (by decide)).1

/-- C4: at the failing input `*-5\r\n` the array reader reaches
`make([]Value, -5)`, a Go runtime panic, not an ordinary `ProtocolError`
return; the sigil checks, by contrast, do return errors naming the
offending line. -/
theorem readArray_neg_count_panics :
    readArray [42, 45, 53, 13, 10] = DecRes.panics ∧
    readArray [43, 79, 75, 13, 10] = .fail (.expectedArrayLine [43, 79, 75]) ∧
    readBulk [42, 49, 13, 10] = .fail (.expectedBulkLine [42, 49]) := by decide

/-- C5 (modelled from the spec — the ceiling check is not wired into the
source's `Set`): with policy `no-eviction`, a nonzero ceiling already
exceeded, and a write that would grow usage, the `Set` reports
`OutOfMemory` and the database (store and memory total) is unchanged. -/
theorem setWithCeiling_oom (conf : Config) (rdb : RedisDb) (key val : GoStr)
    (hpol : conf.eviction = NoEviction) (hceil : conf.maxmem ≠ 0)
    (hover : conf.maxmem < rdb.MemUsed) (hgrow : wouldGrowUsage rdb key val = true) :
    setWithCeiling conf rdb key val = (some OOMErr.outOfMemory, rdb) := by
  unfold setWithCeiling
  rw [if_pos ⟨hpol, hceil, hover, hgrow⟩]

/-- C5 witness: ceiling 10, usage 90 (one live key), a fresh write is
rejected with `OutOfMemory` and the database is returned unchanged. -/
theorem setWithCeiling_oom_witness :
    setWithCeiling ⟨10, "noeviction"⟩ (NewRedisDb.Set [97] [49]) [98] [50] =
      (some OOMErr.outOfMemory, NewRedisDb.Set [97] [49]) :=
  setWithCeiling_oom ⟨10, "noeviction"⟩ (NewRedisDb.Set [97] [49]) [98] [50]
    rfl (by decide) (by decide) (by decide)

/-- C6: a bulk-string header `$-1` yields Null consuming no payload
bytes, and a header `$N` (N = payload length) yields exactly the next N
payload bytes verbatim — whatever they are, embedded CRLF included —
consuming exactly N payload bytes plus the two trailing terminator bytes,
whatever those two bytes are: the length prefix, not the terminator,
delimits the payload. -/
theorem readBulk_spec :
    (∀ rest : List Nat, readBulk ([36, 45, 49, 13, 10] ++ rest) = .ok .null rest) ∧
    (∀ (payload : GoStr) (t1 t2 : Nat) (rest : List Nat),
        readBulk (36 :: natToDec payload.length ++ 13 :: 10 ::
            (payload ++ t1 :: t2 :: rest)) =
          .ok (.bulk payload) rest) :=
  ⟨readBulk_null_stream, readBulk_payload⟩

/-- C7: a successful `Get` returns the record with `lastAccess` set to
now and `accessCount` increased by exactly one, and `M` successive `Get`
calls on an existing key leave its `accessCount` at its prior value plus
`M`. -/
theorem get_metadata_counts (rdb : RedisDb) (key : GoStr) (now : GoTime) (it : Item)
    (h : rdb.store.lookup key = some it) :
    (rdb.Get key now).1 =
      some { it with accessCount := it.accessCount + 1, lastAccess := now } ∧
    ∀ M : Nat, ∃ it', (getIter M rdb key now).store.lookup key = some it' ∧
      it'.accessCount = it.accessCount + M :=
  ⟨(get_hit rdb key now it h).1,
   fun M => by
     obtain ⟨it', h1, h2, _, _⟩ := getIter_accessCount M rdb key now it h
     exact ⟨it', h1, h2⟩⟩

/-- C7 witness: on a freshly set key, one `Get` reports count 1 and three
`Get` calls leave the count at 3. -/
theorem get_metadata_counts_witness :
    ((NewRedisDb.Set [107] [118]).Get [107] 5).1 =
      some ⟨[118], goZeroTime, 5, 1⟩ ∧
    ∃ it', (getIter 3 (NewRedisDb.Set [107] [118]) [107] 5).store.lookup [107] =
        some it' ∧ it'.accessCount = 3 := by
  refine ⟨?_, ?_⟩
  · exact (get_metadata_counts (NewRedisDb.Set [107] [118]) [107] 5
      ⟨[118], goZeroTime, goZeroTime, 0⟩ (by decide)).1
  · obtain ⟨it', h1, h2⟩ := (get_metadata_counts (NewRedisDb.Set [107] [118]) [107] 5
      ⟨[118], goZeroTime, goZeroTime, 0⟩ (by decide)).2 3
    exact ⟨it', h1, by simpa using h2⟩

/-- C8: `Set` unconditionally overwrites with a fresh record whose
metadata is reset: immediately after `Set`, the key's record has
`accessCount` zero and the initial (Go zero value) `lastAccess`,
whatever state the key had before. -/
theorem set_overwrites_fresh (rdb : RedisDb) (key val : GoStr) :
    (rdb.Set key val).store.lookup key =
      some { value := val, expiration := goZeroTime, lastAccess := goZeroTime,
             accessCount := 0 } :=
  lookup_set_self rdb key val

/-- C9: `hasExpired` is a pure function of the record and `now`, equal to
the predicate `expiresAt != NEVER && now >= expiresAt` (NEVER being the
sentinel second `unixTSEpoch`), and false for every record carrying the
sentinel at every time. -/
theorem hasExpired_spec (i : Item) (now : GoTime) :
    (Item.hasExpired i now = true ↔
      (GoTime.unix i.expiration ≠ unixTSEpoch ∧ now ≥ i.expiration)) ∧
    (GoTime.unix i.expiration = unixTSEpoch → Item.hasExpired i now = false) := by
  constructor
  · unfold Item.hasExpired
    constructor
    · intro hx
      rw [Bool.and_eq_true, bne_iff_ne] at hx
      refine ⟨hx.1, ?_⟩
      have h3 := of_decide_eq_true hx.2
      exact sub_nonpos.mp h3
    · rintro ⟨h1, h2⟩
      rw [Bool.and_eq_true, bne_iff_ne]
      exact ⟨h1, decide_eq_true (sub_nonpos.mpr h2)⟩
  · intro h
    simp [Item.hasExpired, h]

/-- C9 witness: a record with the sentinel expiry is reported unexpired
far in the future. -/
theorem hasExpired_spec_witness :
    Item.hasExpired ⟨[118], goZeroTime, 0, 0⟩ 99999999999 = false :=
  (hasExpired_spec ⟨[118], goZeroTime, 0, 0⟩ 99999999999).2 (by decide)

/-- C10: every record created by `Set` carries the no-expiry sentinel
(Go's zero `time.Time`, whose `Unix()` is `unixTSEpoch`), so
`hasExpired` on it is false at every later time — `Set`-created records
never leave the store via expiry. -/
theorem set_records_never_expire (rdb : RedisDb) (key val : GoStr) (now : GoTime) :
    (rdb.Set key val).store.lookup key =
      some { value := val, expiration := goZeroTime, lastAccess := goZeroTime,
             accessCount := 0 } ∧
    Item.hasExpired
      { value := val, expiration := goZeroTime, lastAccess := goZeroTime,
        accessCount := 0 } now = false := by
  refine ⟨lookup_set_self rdb key val, ?_⟩
  simp [Item.hasExpired, unix_goZeroTime]

end Redisgo
